import Mathlib

/-!
Verification development for the Netflix content-strategy analysis pipeline
(src/main.py).  The pandas DataFrame is embedded shallowly: a frame is an
ordered list of rows together with column-presence flags, and each cell is
either missing (NaN/NaT), a raw string, a float (modelled as an exact decimal
m / 10^e), or a datetime (day number since 1970-01-01).  Each pipeline
function of main.py is translated into an executable Lean definition, and the
behavioural properties are proved below the definitions.
-/

namespace Netflix

/-- A pandas cell value: missing (NaN/NaT), a raw string, a float written as
the exact decimal m / 10^e, or a datetime held as a day number since
1970-01-01.  Floats are modelled as decimals because every value produced by
the cleaning step of main.py is parsed from a decimal literal; binary
rounding, infinities and exponent notation are outside the modelled scope. -/
inductive Cell where
  | na : Cell
  | str : String → Cell
  | num : Int → Nat → Cell
  | date : Int → Cell
  deriving DecidableEq, Repr

/-- Fuel-driven little-endian base-10 digit extraction (structural, so the
kernel can evaluate it). -/
def natDigitsLEAux : Nat → Nat → List Nat
  | _, 0 => []
  | 0, _ + 1 => []
  | fuel + 1, n + 1 => ((n + 1) % 10) :: natDigitsLEAux fuel ((n + 1) / 10)

/-- Little-endian base-10 digits of a natural number; empty for 0. -/
def natDigitsLE (n : Nat) : List Nat := natDigitsLEAux n n

/-- Value of a little-endian digit list. -/
def ofDigitsLE : List Nat → Nat
  | [] => 0
  | d :: ds => d + 10 * ofDigitsLE ds

/-- Character for a single decimal digit. -/
def digitChar (d : Nat) : Char := Char.ofNat (48 + d)

/-- Numeric value of a decimal digit character. -/
def charVal (c : Char) : Nat := c.toNat - 48

/-- Most-significant-digit-first value of a digit character list. -/
def msdVal (cs : List Char) : Nat := ofDigitsLE (cs.reverse.map charVal)

/-- Python `str.strip`: drop whitespace from both ends. -/
def pyStrip (cs : List Char) : List Char :=
  ((cs.dropWhile Char.isWhitespace).reverse.dropWhile Char.isWhitespace).reverse

/-- Python `str.replace(",", "")`: drop every comma. -/
def removeCommas (cs : List Char) : List Char := cs.filter (fun c => c != ',')

/-- Unsigned decimal-literal parse, as accepted by `pd.to_numeric`: digits with
an optional single decimal point, at least one digit in total.  Returns the
mantissa and the number of fractional digits. -/
def parseUnsigned (cs : List Char) : Option (Nat × Nat) :=
  let ip := cs.takeWhile Char.isDigit
  let rest := cs.dropWhile Char.isDigit
  if rest.isEmpty then
    if ip.isEmpty then none else some (msdVal ip, 0)
  else if rest.head? = some '.' then
    let fp := rest.tail
    if fp.all Char.isDigit && !(ip.isEmpty && fp.isEmpty) then
      some (msdVal (ip ++ fp), fp.length)
    else none
  else none

/-- Remove factors of ten shared between mantissa and exponent, identifying the
decimal representations of one float value (pandas stores a float, not the
literal). -/
def normDec (m : Int) : Nat → Int × Nat
  | 0 => (m, 0)
  | e + 1 => if m % 10 = 0 then normDec (m / 10) e else (m, e + 1)

/-- Signed decimal parse onto the normalised decimal representation of the
resulting float; `none` models NaN from coercion failure.  An optional
leading sign is consumed, the remainder must be an unsigned decimal
literal. -/
def parseDecChars (cs : List Char) : Option (Int × Nat) :=
  if cs.head? = some '-' then (parseUnsigned cs.tail).map fun p => normDec (-(p.1 : Int)) p.2
  else if cs.head? = some '+' then (parseUnsigned cs.tail).map fun p => normDec ((p.1 : Int)) p.2
  else (parseUnsigned cs).map fun p => normDec ((p.1 : Int)) p.2

/-- The little-endian digits of the mantissa, zero-padded on the high side so
that there is at least one digit on each side of the decimal point. -/
def paddedDigits (n : Nat) (e : Nat) : List Nat :=
  let ds := natDigitsLE n
  ds ++ List.replicate (e + 1 - ds.length) 0

/-- The fractional digits (little-endian): the low `e` digits, or the single
digit 0 when the value is integral. -/
def fracDigits (n : Nat) (e : Nat) : List Nat :=
  if e = 0 then [0] else (paddedDigits n e).take e

/-- The integer-part digits (little-endian). -/
def intDigits (n : Nat) (e : Nat) : List Nat :=
  if e = 0 then paddedDigits n e else (paddedDigits n e).drop e

/-- Unsigned part of the decimal rendering of n / 10^e: integer digits, a
decimal point, fractional digits. -/
def renderBody (n : Nat) (e : Nat) : List Char :=
  (intDigits n e).reverse.map digitChar ++ '.' :: (fracDigits n e).reverse.map digitChar

/-- Render the decimal m / 10^e the way Python `str` renders the float: sign,
integer digits, a decimal point, and at least one fractional digit. -/
def renderDecChars (m : Int) (e : Nat) : List Char :=
  (if m < 0 then ['-'] else []) ++ renderBody m.natAbs e

/-- Fixed-width zero-padded decimal rendering (for dates). -/
def padNum (width n : Nat) : List Char :=
  let ds := (natDigitsLE n).reverse.map digitChar
  List.replicate (width - ds.length) '0' ++ ds

/-- Days since 1970-01-01 of a proleptic Gregorian date (Hinnant's civil
day-count, with euclidean division). -/
def daysFromCivil (y m d : Int) : Int :=
  let y1 := y - (if m ≤ 2 then 1 else 0)
  let era := y1 / 400
  let yoe := y1 - era * 400
  let mp := (m + 9) % 12
  let doy := (153 * mp + 2) / 5 + d - 1
  let doe := yoe * 365 + yoe / 4 - yoe / 100 + doy
  era * 146097 + doe - 719468

/-- Inverse of `daysFromCivil`: year, month, day of a day number. -/
def civilFromDays (z0 : Int) : Int × Int × Int :=
  let z := z0 + 719468
  let era := z / 146097
  let doe := z - era * 146097
  let yoe := (doe - doe / 1460 + doe / 36524 - doe / 146096) / 365
  let y := yoe + era * 400
  let doy := doe - (365 * yoe + yoe / 4 - yoe / 100)
  let mp := (5 * doy + 2) / 153
  let d := doy - (153 * mp + 2) / 5 + 1
  let m := mp + (if mp < 10 then 3 else -9)
  (y + (if m ≤ 2 then 1 else 0), m, d)

/-- ISO rendering of a datetime cell, as pandas prints a midnight timestamp. -/
def isoDateChars (z : Int) : List Char :=
  let c := civilFromDays z
  padNum 4 c.1.natAbs ++ '-' :: padNum 2 c.2.1.natAbs ++ '-' :: padNum 2 c.2.2.natAbs

/-- Python `astype(str)` on one cell: NaN prints as "nan", floats by decimal
rendering, datetimes in ISO form. -/
def cellChars : Cell → List Char
  | .na => ['n', 'a', 'n']
  | .str s => s.toList
  | .num m e => renderDecChars m e
  | .date z => isoDateChars z

/-- The per-cell transform of `clean_hours` (main.py lines 29-30): stringify,
remove commas, strip whitespace, then numeric-parse with coercion failure
becoming NaN. -/
def cleanCell (c : Cell) : Cell :=
  match parseDecChars (pyStrip (removeCommas (cellChars c))) with
  | some (m, e) => .num m e
  | none => .na

/-- `get_season` (main.py lines 50-60): a missing month stays missing, month
numbers map onto the four fixed season buckets, anything else is Fall. -/
def get_season (month : Option Int) : Option String :=
  match month with
  | none => none
  | some month =>
    if month ∈ [12, 1, 2] then some ("Winter")
    else if month ∈ [3, 4, 5] then some ("Spring")
    else if month ∈ [6, 7, 8] then some ("Summer")
    else some ("Fall")

/-- One row of the table: the columns of the input CSV plus the columns
derived by `prepare_dates`.  Optional categorical columns are `Option`; the
derived columns are missing until the enricher fills them. -/
structure Row where
  title : String
  hours : Cell
  releaseDate : Cell
  contentType : Option String
  language : Option String
  releaseMonth : Option Int
  releaseDay : Option String
  releaseYear : Option Int
  deriving DecidableEq, Repr

/-- A DataFrame: column-presence flags (modelling membership in df.columns)
plus the ordered list of rows. -/
structure Frame where
  hasHours : Bool
  hasDate : Bool
  hasContentType : Bool
  hasLanguage : Bool
  hasMonth : Bool
  hasDay : Bool
  rows : List Row
  deriving DecidableEq, Repr

/-- The row-wise action of `clean_hours`: only the hours column changes. -/
def cleanRow (r : Row) : Row := { r with hours := cleanCell r.hours }

/-- `clean_hours` (main.py lines 25-34): raises KeyError when the column is
absent; otherwise coerces the hours column cell-wise and reports the number
of missing values after cleaning (the printed warning count). -/
def clean_hours (df : Frame) : Except String (Frame × Nat) :=
  if df.hasHours then
    let rows := df.rows.map cleanRow
    .ok ({ df with rows := rows }, (rows.filter (fun r => r.hours == Cell.na)).length)
  else .error ("KeyError: Hours Viewed")

/-- All-digit nonempty numeral parse (one component of an ISO date). -/
def parseNatAll (cs : List Char) : Option Nat :=
  if cs.all Char.isDigit && !cs.isEmpty then some (msdVal cs) else none

/-- Split a character list at every occurrence of a separator. -/
def splitOnChar (sep : Char) (cs : List Char) : List (List Char) :=
  match cs with
  | [] => [[]]
  | c :: rest =>
    let r := splitOnChar sep rest
    if c = sep then [] :: r
    else
      match r with
      | [] => [[c]]
      | g :: gs => (c :: g) :: gs

/-- ISO `YYYY-MM-DD` parse with range validation, modelling the date formats
`pd.to_datetime` accepts in this dataset; anything else coerces to NaT. -/
def parseISO (cs : List Char) : Option (Int × Int × Int) :=
  match splitOnChar '-' cs with
  | [ys, ms, ds] =>
    match parseNatAll ys, parseNatAll ms, parseNatAll ds with
    | some y, some m, some d =>
      if 1 ≤ m ∧ m ≤ 12 ∧ 1 ≤ d ∧ d ≤ 31 then
        some ((y : Int), (m : Int), (d : Int))
      else none
    | _, _, _ => none
  | _ => none

/-- `pd.to_datetime(_, errors="coerce")` on one cell: strings are parsed,
datetimes pass through, everything else becomes NaT. -/
def parseDateCell : Cell → Option (Int × Int × Int)
  | .str s => parseISO s.toList
  | .date z => some (civilFromDays z)
  | _ => none

/-- Weekday names in the order used by main.py. -/
def dayNames : List String := ["Monday", "Tuesday", "Wednesday", "Thursday", "Friday", "Saturday", "Sunday"]

/-- `dt.day_name()` of a day number (1970-01-01 was a Thursday). -/
def dayName (z : Int) : String := dayNames.getD ((z + 3) % 7).toNat ("Monday")

/-- The row-wise action of `prepare_dates`: the date column is coerced to a
datetime and the three derived columns are filled, or all four become
missing. -/
def prepRow (r : Row) : Row :=
  match parseDateCell r.releaseDate with
  | some (y, m, d) =>
    let z := daysFromCivil y m d
    { r with releaseDate := .date z, releaseMonth := some m,
             releaseDay := some (dayName z), releaseYear := some y }
  | none =>
    { r with releaseDate := .na, releaseMonth := none,
             releaseDay := none, releaseYear := none }

/-- `prepare_dates` (main.py lines 37-47): raises KeyError when the date
column is absent; otherwise coerces it, adds Release Month / Day / Year, and
reports the number of missing dates. -/
def prepare_dates (df : Frame) : Except String (Frame × Nat) :=
  if df.hasDate then
    let rows := df.rows.map prepRow
    .ok ({ df with rows := rows, hasMonth := true, hasDay := true },
         (rows.filter (fun r => r.releaseDate == Cell.na)).length)
  else .error ("KeyError: Release Date")

/-- The default reference dates of `holiday_release_analysis`. -/
def importantDatesDefault : List String :=
  ["2023-01-01", "2023-02-14", "2023-07-04", "2023-10-31", "2023-12-25"]

/-- Day number of a reference-date string. -/
def parseDateNum (s : String) : Option Int :=
  (parseISO s.toList).map fun c => daysFromCivil c.1 c.2.1 c.2.2

/-- The mask lambda of main.py line 155: a row matches when its release date
is an actual date within `w` days of some reference date; NaT never
matches. -/
def holidayMatch (w : Int) (refs : List Int) (r : Row) : Bool :=
  match r.releaseDate with
  | .date x => refs.any fun d => decide (|x - d| ≤ w)
  | _ => false

/-- The columnless empty frame returned when Release Date is absent
(pd.DataFrame()). -/
def emptyFrame : Frame := ⟨false, false, false, false, false, false, []⟩

/-- `holiday_release_analysis` (main.py lines 148-163): the subset of rows
whose release date falls within the window of any reference date, in
original order; an empty frame when the date column is missing. -/
def holiday_release_analysis (df : Frame) (dates : List String) (window_days : Int) : Frame :=
  let refs := dates.filterMap parseDateNum
  if df.hasDate then { df with rows := df.rows.filter (holidayMatch window_days refs) }
  else emptyFrame

/-- Numeric value of a cell under pandas sum semantics: NaN contributes 0
(skipna); the aggregations of main.py run on the cleaned numeric column, so
only `num` and `na` cells occur there. -/
def hoursQ : Cell → ℚ
  | .num m e => (m : ℚ) / 10 ^ e
  | _ => 0

/-- The per-key group sum of `groupby("Release Month")["Hours Viewed"].sum()`:
rows whose month equals the key, summed with skipna semantics. -/
def groupSumMonth (rs : List Row) (m : Int) : ℚ :=
  ((rs.filter fun r => r.releaseMonth == some m).map fun r => hoursQ r.hours).sum

/-- The series computed by `plot_monthly_viewership` (main.py line 93):
group-sum by Release Month then `reindex(range(1, 13), fill_value=0)` - each
key of the fixed domain keeps its group sum when the key occurs in the data
and is filled with 0 otherwise. -/
def monthRange : List Int := (List.range 12).map fun i => Int.ofNat (i + 1)

def monthlyViewership (rs : List Row) : List (Int × ℚ) :=
  monthRange.map fun k =>
    (k, if rs.any fun r => r.releaseMonth == some k then groupSumMonth rs k else 0)

/-- Whether a cell is an actual float (not NaN): the values `nlargest`
considers. -/
def Cell.isNum : Cell → Bool
  | .num _ _ => true
  | _ => false

/-- The decimal components of a cell's numeric value ((0, 0) for non-floats,
which all carry value 0 under `hoursQ`). -/
def hoursKey : Cell → Int × Nat
  | .num m e => (m, e)
  | _ => (0, 0)

/-- Exact order on decimal values by cross multiplication (kernel-evaluable
form of the float comparison used by `nlargest`). -/
def decimalLe (p q : Int × Nat) : Bool := decide (p.1 * 10 ^ q.2 ≤ q.1 * 10 ^ p.2)

/-- Comparison used for descending stable ordering by hours: a may precede b
when b's value does not exceed a's. -/
def hoursDescLe (a b : Row) : Bool := decimalLe (hoursKey b.hours) (hoursKey a.hours)

/-- The descending-by-hours ordering as a decidable relation. -/
def hoursDescRel (a b : Row) : Prop := hoursDescLe a b = true

instance : DecidableRel hoursDescRel := fun a b =>
  inferInstanceAs (Decidable (hoursDescLe a b = true))

/-- `df.nlargest(n, "Hours Viewed")`: drop NaN rows, stable-sort descending
by hours, take the first n (keep="first" prioritises earlier rows on
ties, which a stable insertion into descending order reproduces). -/
def nlargestRows (n : Nat) (rs : List Row) : List Row :=
  ((rs.filter fun r => r.hours.isNum).insertionSort hoursDescRel).take n

/-- `print_top_titles` (main.py lines 166-173): skips (returns nothing) when
the hours column is absent, otherwise the top-n rows. -/
def print_top_titles (df : Frame) (n : Nat) : Option (List Row) :=
  if df.hasHours then some (nlargestRows n df.rows) else none

/-- Outcome of one batch run: deliberate exit(1) on load failure, an
uncaught KeyError (which also terminates the process with a non-zero
status), or normal completion carrying the enriched frame, the holiday
subset and the printed top rows. -/
inductive RunOutcome where
  | exitLoadFailure
  | uncaughtKeyError (msg : String)
  | completed (df : Frame) (holiday : Frame) (top : Option (List Row))
  deriving DecidableEq, Repr

/-- `main` (main.py lines 282-311) in batch mode.  The input models
`load_data`: `none` is a missing file (sys.exit(1)); after a successful
load, `clean_hours` and `prepare_dates` raise uncaught KeyError when their
column is missing, and every chart / report step after them is guarded by a
column check and can only skip, never abort. -/
def mainBatch (file : Option Frame) (topN : Nat) : RunOutcome :=
  match file with
  | none => .exitLoadFailure
  | some df =>
    match clean_hours df with
    | .error e => .uncaughtKeyError e
    | .ok (df1, _) =>
      match prepare_dates df1 with
      | .error e => .uncaughtKeyError e
      | .ok (df2, _) =>
        .completed df2 (holiday_release_analysis df2 importantDatesDefault 3)
          (print_top_titles df2 topN)

/-- Whether a run outcome is an abnormal termination (non-zero exit status). -/
def RunOutcome.isAbnormal : RunOutcome → Bool
  | .completed _ _ _ => false
  | _ => true

/-- Sample enriched row: released 2023-12-24, one day before Christmas. -/
def rowA : Row :=
  ⟨"A", Cell.num 1234 0, Cell.date (daysFromCivil 2023 12 24), some ("Movie"), none,
   some 12, some ("Sunday"), some 2023⟩

/-- Sample enriched row: released 2023-12-20, five days from Christmas and
farther from every other reference date. -/
def rowB : Row :=
  ⟨"B", Cell.num 500 0, Cell.date (daysFromCivil 2023 12 20), some ("Show"), none,
   some 12, some ("Wednesday"), some 2023⟩

/-- Sample row with missing hours and missing date. -/
def rowNa : Row := ⟨"N", Cell.na, Cell.na, none, none, none, none, none⟩

/-- Sample enriched frame with both date-carrying rows. -/
def holidayFrame : Frame := ⟨true, true, true, false, true, true, [rowA, rowB]⟩

/-- The raw frame of the cleaning scenario: hours column values "1,234",
" 500 " and "abc". -/
def scenarioFrame : Frame :=
  ⟨true, false, false, false, false, false,
   [⟨"t1", Cell.str ("1,234"), Cell.na, none, none, none, none, none⟩,
    ⟨"t2", Cell.str (" 500 "), Cell.na, none, none, none, none, none⟩,
    ⟨"t3", Cell.str ("abc"), Cell.na, none, none, none, none, none⟩]⟩

/-- The cleaning scenario after one pass of `clean_hours`. -/
def cleanedScenario : Frame :=
  ⟨true, false, false, false, false, false,
   [⟨"t1", Cell.num 1234 0, Cell.na, none, none, none, none, none⟩,
    ⟨"t2", Cell.num 500 0, Cell.na, none, none, none, none, none⟩,
    ⟨"t3", Cell.na, Cell.na, none, none, none, none, none⟩]⟩

/-- A loadable frame whose Hours Viewed column is absent. -/
def frameNoHours : Frame := ⟨false, true, false, false, false, false, [rowNa]⟩

/-!  Theorems.  First the digit and character helper lemmas, then the
round-trip development behind cleaning idempotence, then one theorem per
behavioural property. -/

theorem natDigitsLEAux_irrel :
    ∀ n fuel1 fuel2, n ≤ fuel1 → n ≤ fuel2 →
      natDigitsLEAux fuel1 n = natDigitsLEAux fuel2 n := by
  intro n
  induction n using Nat.strong_induction_on with
  | _ n ih =>
    intro fuel1 fuel2 h1 h2
    match n, fuel1, fuel2, h1, h2 with
    | 0, f1, f2, _, _ =>
      cases f1 <;> cases f2 <;> rfl
    | m + 1, f1 + 1, f2 + 1, h1, h2 =>
      have hdiv : (m + 1) / 10 < m + 1 := Nat.div_lt_self (Nat.succ_pos m) (by decide)
      show ((m + 1) % 10) :: natDigitsLEAux f1 ((m + 1) / 10)
         = ((m + 1) % 10) :: natDigitsLEAux f2 ((m + 1) / 10)
      rw [ih _ hdiv f1 f2 (by omega) (by omega)]

theorem natDigitsLE_eq (n : Nat) :
    natDigitsLE n = if n = 0 then [] else n % 10 :: natDigitsLE (n / 10) := by
  match n with
  | 0 => rfl
  | m + 1 =>
    have hdiv : (m + 1) / 10 < m + 1 := Nat.div_lt_self (Nat.succ_pos m) (by decide)
    show ((m + 1) % 10) :: natDigitsLEAux m ((m + 1) / 10)
       = (m + 1) % 10 :: natDigitsLEAux ((m + 1) / 10) ((m + 1) / 10)
    rw [natDigitsLEAux_irrel ((m + 1) / 10) m ((m + 1) / 10) (by omega) (by omega)]

theorem ofDigitsLE_natDigitsLE (n : Nat) : ofDigitsLE (natDigitsLE n) = n := by
  induction n using Nat.strong_induction_on with
  | _ n ih =>
    rw [natDigitsLE_eq]
    split
    · simp [ofDigitsLE]; omega
    · rename_i h
      have hlt : n / 10 < n := Nat.div_lt_self (Nat.pos_of_ne_zero h) (by decide)
      simp [ofDigitsLE, ih _ hlt]
      omega

theorem natDigitsLE_lt (n : Nat) : ∀ d ∈ natDigitsLE n, d < 10 := by
  induction n using Nat.strong_induction_on with
  | _ n ih =>
    rw [natDigitsLE_eq]
    split
    · simp
    · rename_i h
      have hlt : n / 10 < n := Nat.div_lt_self (Nat.pos_of_ne_zero h) (by decide)
      intro d hd
      rcases List.mem_cons.mp hd with h1 | h2
      · subst h1; exact Nat.mod_lt _ (by decide)
      · exact ih _ hlt d h2

theorem charVal_digitChar {d : Nat} (h : d < 10) : charVal (digitChar d) = d := by
  interval_cases d <;> decide

theorem digitChar_isDigit {d : Nat} (h : d < 10) : (digitChar d).isDigit = true := by
  interval_cases d <;> decide

theorem digitChar_ne_comma {d : Nat} (h : d < 10) : digitChar d ≠ ',' := by
  interval_cases d <;> decide

theorem digitChar_ne_dot {d : Nat} (h : d < 10) : digitChar d ≠ '.' := by
  interval_cases d <;> decide

theorem digitChar_ne_minus {d : Nat} (h : d < 10) : digitChar d ≠ '-' := by
  interval_cases d <;> decide

theorem digitChar_ne_plus {d : Nat} (h : d < 10) : digitChar d ≠ '+' := by
  interval_cases d <;> decide

theorem digitChar_not_ws {d : Nat} (h : d < 10) : (digitChar d).isWhitespace = false := by
  interval_cases d <;> decide

theorem dropWhile_eq_self_of_all {α : Type} {p : α → Bool} {l : List α}
    (h : ∀ a ∈ l, p a = false) : l.dropWhile p = l := by
  cases l with
  | nil => rfl
  | cons a t => rw [List.dropWhile_cons]; simp [h a (List.mem_cons_self a t)]

theorem pyStrip_eq_self {cs : List Char} (h : ∀ c ∈ cs, c.isWhitespace = false) :
    pyStrip cs = cs := by
  unfold pyStrip
  rw [dropWhile_eq_self_of_all h,
      dropWhile_eq_self_of_all (fun c hc => h c (List.mem_reverse.mp hc)),
      List.reverse_reverse]

theorem removeCommas_eq_self {cs : List Char} (h : ∀ c ∈ cs, c ≠ ',') :
    removeCommas cs = cs := by
  unfold removeCommas
  rw [List.filter_eq_self]
  intro a ha
  simpa using h a ha

theorem paddedDigits_lt (n e : Nat) : ∀ d ∈ paddedDigits n e, d < 10 := by
  intro d hd
  simp only [paddedDigits] at hd
  rcases List.mem_append.mp hd with h1 | h2
  · exact natDigitsLE_lt n d h1
  · have := List.eq_of_mem_replicate h2
    omega

theorem fracDigits_lt (n e : Nat) : ∀ d ∈ fracDigits n e, d < 10 := by
  intro d hd
  simp only [fracDigits] at hd
  split at hd
  · simp at hd; omega
  · exact paddedDigits_lt n e d (List.mem_of_mem_take hd)

theorem intDigits_lt (n e : Nat) : ∀ d ∈ intDigits n e, d < 10 := by
  intro d hd
  simp only [intDigits] at hd
  split at hd
  · exact paddedDigits_lt n e d hd
  · exact paddedDigits_lt n e d (List.drop_subset _ _ hd)

theorem paddedDigits_length_ge (n e : Nat) : e + 1 ≤ (paddedDigits n e).length := by
  simp only [paddedDigits, List.length_append, List.length_replicate]
  omega

theorem fracDigits_length (n e : Nat) :
    (fracDigits n e).length = if e = 0 then 1 else e := by
  simp only [fracDigits]
  split
  · rfl
  · have := paddedDigits_length_ge n e
    simp only [List.length_take]
    omega

theorem fracDigits_ne_nil (n e : Nat) : fracDigits n e ≠ [] := by
  apply List.ne_nil_of_length_pos
  rw [fracDigits_length]
  split <;> omega

theorem intDigits_ne_nil (n e : Nat) : intDigits n e ≠ [] := by
  apply List.ne_nil_of_length_pos
  have := paddedDigits_length_ge n e
  simp only [intDigits]
  split
  · omega
  · simp only [List.length_drop]
    omega

theorem ofDigitsLE_replicate_zero (k : Nat) : ofDigitsLE (List.replicate k 0) = 0 := by
  induction k with
  | zero => rfl
  | succ k ih => simp [List.replicate_succ, ofDigitsLE, ih]

theorem ofDigitsLE_append_replicate_zero (l : List Nat) (k : Nat) :
    ofDigitsLE (l ++ List.replicate k 0) = ofDigitsLE l := by
  induction l with
  | nil => simpa using ofDigitsLE_replicate_zero k
  | cons d t ih => simp [ofDigitsLE, ih]

theorem ofDigitsLE_paddedDigits (n e : Nat) : ofDigitsLE (paddedDigits n e) = n := by
  simp only [paddedDigits]
  rw [ofDigitsLE_append_replicate_zero, ofDigitsLE_natDigitsLE]

theorem ofDigitsLE_frac_int (n e : Nat) :
    ofDigitsLE (fracDigits n e ++ intDigits n e) = if e = 0 then 10 * n else n := by
  by_cases h : e = 0
  · subst h
    simp [fracDigits, intDigits, ofDigitsLE, ofDigitsLE_paddedDigits]
  · simp only [fracDigits, intDigits, if_neg h]
    rw [List.take_append_drop, ofDigitsLE_paddedDigits]

theorem reverse_map_digitChar_charVal {ds : List Nat} (h : ∀ d ∈ ds, d < 10) :
    (ds.reverse.map digitChar).reverse.map charVal = ds := by
  rw [List.map_reverse, List.map_map]
  have h2 : ∀ d ∈ ds.reverse, (charVal ∘ digitChar) d = id d := by
    intro d hd
    exact charVal_digitChar (h d (List.mem_reverse.mp hd))
  rw [List.map_congr_left h2, List.map_id, List.reverse_reverse]

theorem msdVal_digit_lists {intDs fracDs : List Nat}
    (hi : ∀ d ∈ intDs, d < 10) (hf : ∀ d ∈ fracDs, d < 10) :
    msdVal (intDs.reverse.map digitChar ++ fracDs.reverse.map digitChar)
      = ofDigitsLE (fracDs ++ intDs) := by
  unfold msdVal
  rw [List.reverse_append, List.map_append,
      reverse_map_digitChar_charVal hf, reverse_map_digitChar_charVal hi]

theorem mem_rev_map_digitChar {ds : List Nat} {c : Char}
    (hds : ∀ d ∈ ds, d < 10) (hc : c ∈ ds.reverse.map digitChar) :
    ∃ d, d < 10 ∧ c = digitChar d := by
  rcases List.mem_map.mp hc with ⟨d, hd, rfl⟩
  exact ⟨d, hds d (List.mem_reverse.mp hd), rfl⟩

theorem parseUnsigned_renderBody (n e : Nat) :
    parseUnsigned (renderBody n e)
      = some (if e = 0 then 10 * n else n, if e = 0 then 1 else e) := by
  have hi := intDigits_lt n e
  have hf := fracDigits_lt n e
  have hiC : ∀ c ∈ (intDigits n e).reverse.map digitChar, Char.isDigit c = true := by
    intro c hc
    rcases mem_rev_map_digitChar hi hc with ⟨d, hd, rfl⟩
    exact digitChar_isDigit hd
  have hfAll : ((fracDigits n e).reverse.map digitChar).all Char.isDigit = true := by
    rw [List.all_eq_true]
    intro c hc
    rcases mem_rev_map_digitChar hf hc with ⟨d, hd, rfl⟩
    exact digitChar_isDigit hd
  have hfne : ((fracDigits n e).reverse.map digitChar).isEmpty = false := by
    rw [List.isEmpty_eq_false]
    simp [fracDigits_ne_nil n e]
  have h1 : List.takeWhile Char.isDigit (renderBody n e)
      = (intDigits n e).reverse.map digitChar := by
    unfold renderBody
    rw [List.takeWhile_append_of_pos hiC,
        List.takeWhile_cons_of_neg (show ¬(Char.isDigit '.' = true) by decide),
        List.append_nil]
  have h2 : List.dropWhile Char.isDigit (renderBody n e)
      = '.' :: (fracDigits n e).reverse.map digitChar := by
    unfold renderBody
    rw [List.dropWhile_append_of_pos hiC, List.dropWhile_cons]
    simp [show Char.isDigit '.' = false from by decide]
  simp only [parseUnsigned, h1, h2]
  simp only [List.isEmpty_cons, List.head?_cons, List.tail_cons]
  rw [if_neg (show ¬(false = true) by simp), if_pos trivial,
      if_pos (show _ = true by rw [hfAll, hfne]; simp)]
  rw [msdVal_digit_lists hi hf, ofDigitsLE_frac_int]
  simp [fracDigits_length]

theorem renderBody_head (n e : Nat) :
    ∃ d rest, d < 10 ∧ renderBody n e = digitChar d :: rest := by
  have hne := intDigits_ne_nil n e
  cases hrev : (intDigits n e).reverse with
  | nil => exact absurd (List.reverse_eq_nil_iff.mp hrev) hne
  | cons d t =>
    refine ⟨d, t.map digitChar ++ '.' :: (fracDigits n e).reverse.map digitChar, ?_, ?_⟩
    · exact intDigits_lt n e d (List.mem_reverse.mp (hrev ▸ List.mem_cons_self d t))
    · unfold renderBody
      rw [hrev]
      rfl

theorem normDec_shift (m : Int) : normDec (10 * m) 1 = (m, 0) := by
  have h10 : (10 : Int) ∣ 10 * m := Dvd.intro m rfl
  simp only [normDec, Int.mul_emod_right, if_pos]
  rw [Int.mul_ediv_cancel_left m (by norm_num : (10 : Int) ≠ 0)]

theorem normDec_of_not_dvd {m : Int} {e : Nat} (h : ¬ m % 10 = 0) (he : e ≠ 0) :
    normDec m e = (m, e) := by
  cases e with
  | zero => exact absurd rfl he
  | succ e => simp [normDec, h]

theorem parseDec_render (m : Int) (e : Nat) (hnorm : e = 0 ∨ ¬ (m % 10 = 0)) :
    parseDecChars (renderDecChars m e) = some (m, e) := by
  obtain ⟨d, rest, hd, hbody⟩ := renderBody_head m.natAbs e
  by_cases hm : m < 0
  · have hr : renderDecChars m e = '-' :: renderBody m.natAbs e := by
      unfold renderDecChars
      rw [if_pos hm]
      rfl
    rw [hr]
    unfold parseDecChars
    rw [List.head?_cons, if_pos rfl, List.tail_cons, parseUnsigned_renderBody]
    simp only [Option.map_some']
    rcases Nat.eq_zero_or_pos e with he | he
    · subst he
      simp only [if_true]
      have hc : -((10 * m.natAbs : Nat) : Int) = 10 * (-(m.natAbs : Int)) := by
        push_cast
        ring
      rw [hc, normDec_shift]
      have : -((m.natAbs : Nat) : Int) = m := by omega
      rw [this]
    · have hne : e ≠ 0 := by omega
      rcases hnorm with h0 | hdvd
      · exact absurd h0 hne
      · simp only [if_neg hne]
        have habs : -((m.natAbs : Nat) : Int) = m := by omega
        rw [habs, normDec_of_not_dvd hdvd hne]
  · have hr : renderDecChars m e = renderBody m.natAbs e := by
      unfold renderDecChars
      rw [if_neg hm]
      rfl
    rw [hr, hbody]
    unfold parseDecChars
    rw [List.head?_cons,
        if_neg (fun hh => digitChar_ne_minus hd (Option.some.injEq _ _ ▸ hh : digitChar d = '-')),
        if_neg (fun hh => digitChar_ne_plus hd (Option.some.injEq _ _ ▸ hh : digitChar d = '+')),
        ← hbody, parseUnsigned_renderBody]
    simp only [Option.map_some']
    rcases Nat.eq_zero_or_pos e with he | he
    · subst he
      simp only [if_true]
      have hc : ((10 * m.natAbs : Nat) : Int) = 10 * ((m.natAbs : Nat) : Int) := by
        push_cast
        ring
      rw [hc, normDec_shift]
      have : ((m.natAbs : Nat) : Int) = m := by omega
      rw [this]
    · have hne : e ≠ 0 := by omega
      rcases hnorm with h0 | hdvd
      · exact absurd h0 hne
      · simp only [if_neg hne]
        have habs : ((m.natAbs : Nat) : Int) = m := by omega
        rw [habs, normDec_of_not_dvd hdvd hne]

theorem normDec_valid (e : Nat) (m : Int) :
    (normDec m e).2 = 0 ∨ ¬ ((normDec m e).1 % 10 = 0) := by
  induction e generalizing m with
  | zero => exact Or.inl rfl
  | succ e ih =>
    by_cases h : m % 10 = 0
    · simpa [normDec, h] using ih (m / 10)
    · right
      simp [normDec, h]

theorem parseDecChars_valid {cs : List Char} {m : Int} {e : Nat}
    (h : parseDecChars cs = some (m, e)) : e = 0 ∨ ¬ (m % 10 = 0) := by
  unfold parseDecChars at h
  split at h
  · rcases Option.map_eq_some'.mp h with ⟨p, _, hp⟩
    have := normDec_valid p.2 (-(p.1 : Int))
    rw [hp] at this
    exact this
  · split at h
    · rcases Option.map_eq_some'.mp h with ⟨p, _, hp⟩
      have := normDec_valid p.2 ((p.1 : Int))
      rw [hp] at this
      exact this
    · rcases Option.map_eq_some'.mp h with ⟨p, _, hp⟩
      have := normDec_valid p.2 ((p.1 : Int))
      rw [hp] at this
      exact this

theorem render_clean (m : Int) (e : Nat) :
    ∀ c ∈ renderDecChars m e, c ≠ ',' ∧ c.isWhitespace = false := by
  intro c hc
  unfold renderDecChars renderBody at hc
  rcases List.mem_append.mp hc with h1 | h2
  · split at h1
    · rcases List.mem_singleton.mp h1 with rfl
      exact ⟨by decide, by decide⟩
    · exact absurd h1 (List.not_mem_nil c)
  · rcases List.mem_append.mp h2 with h3 | h4
    · rcases mem_rev_map_digitChar (intDigits_lt m.natAbs e) h3 with ⟨d, hd, rfl⟩
      exact ⟨digitChar_ne_comma hd, digitChar_not_ws hd⟩
    · rcases List.mem_cons.mp h4 with h5 | h6
      · subst h5
        exact ⟨by decide, by decide⟩
      · rcases mem_rev_map_digitChar (fracDigits_lt m.natAbs e) h6 with ⟨d, hd, rfl⟩
        exact ⟨digitChar_ne_comma hd, digitChar_not_ws hd⟩

theorem cleanCell_idem (c : Cell) : cleanCell (cleanCell c) = cleanCell c := by
  cases h : parseDecChars (pyStrip (removeCommas (cellChars c))) with
  | none =>
    have h1 : cleanCell c = Cell.na := by
      unfold cleanCell
      rw [h]
    rw [h1]
    decide
  | some p =>
    obtain ⟨m, e⟩ := p
    have h1 : cleanCell c = Cell.num m e := by
      unfold cleanCell
      rw [h]
    rw [h1]
    have hvalid := parseDecChars_valid h
    have hclean := render_clean m e
    show cleanCell (Cell.num m e) = Cell.num m e
    unfold cleanCell
    show (match parseDecChars (pyStrip (removeCommas (renderDecChars m e))) with
      | some (m, e) => Cell.num m e
      | none => Cell.na) = Cell.num m e
    rw [removeCommas_eq_self (fun ch hch => (hclean ch hch).1),
        pyStrip_eq_self (fun ch hch => (hclean ch hch).2),
        parseDec_render m e hvalid]

theorem cleanRow_idem (r : Row) : cleanRow (cleanRow r) = cleanRow r := by
  simp [cleanRow, cleanCell_idem]

/-- C6: numeric cleaning is idempotent.  If `clean_hours` turned `df` into
`df1` (reporting `k` missing values), then running `clean_hours` again on
`df1` returns exactly the same frame and reports exactly the same count:
every already-numeric value and every missing value is unchanged by a second
pass. -/
theorem clean_hours_idempotent (df df1 : Frame) (k : Nat)
    (h : clean_hours df = Except.ok (df1, k)) :
    clean_hours df1 = Except.ok (df1, k) := by
  unfold clean_hours at h
  by_cases hH : df.hasHours
  · rw [if_pos hH] at h
    simp only [Except.ok.injEq, Prod.mk.injEq] at h
    obtain ⟨hf, hk⟩ := h
    subst hf
    subst hk
    unfold clean_hours
    have hH2 : ({ df with rows := df.rows.map cleanRow } : Frame).hasHours = true := hH
    rw [if_pos hH2]
    have hmap : (df.rows.map cleanRow).map cleanRow = df.rows.map cleanRow := by
      rw [List.map_map]
      exact List.map_congr_left (fun r _ => cleanRow_idem r)
    simp only [hmap]
  · rw [if_neg hH] at h
    exact absurd h (by simp)

theorem clean_hours_idempotent_witness :
    clean_hours scenarioFrame = Except.ok (cleanedScenario, 1) ∧
    clean_hours cleanedScenario = Except.ok (cleanedScenario, 1) :=
  ⟨rfl, clean_hours_idempotent scenarioFrame cleanedScenario 1 rfl⟩

/-- C7: cleaning the hours column containing the textual values "1,234",
" 500 " and "abc" produces the numeric values 1234.0, 500.0 and missing
respectively, and reports exactly one missing value. -/
theorem clean_hours_scenario :
    clean_hours scenarioFrame = Except.ok (cleanedScenario, 1) ∧
    hoursQ (Cell.num 1234 0) = 1234 ∧ hoursQ (Cell.num 500 0) = 500 := by
  refine ⟨rfl, ?_, ?_⟩ <;> norm_num [hoursQ]

/-- C2: on month numbers 1..12 the season classifier returns exactly one of
the four fixed buckets, following the mapping 12,1,2 to Winter, 3,4,5 to
Spring, 6,7,8 to Summer and 9,10,11 to Fall; a missing month yields a
missing season.  `get_season` is a pure function, so determinism and
statelessness hold by construction. -/
theorem get_season_mapping (m : Int) :
    ((m = 12 ∨ m = 1 ∨ m = 2) → get_season (some m) = some ("Winter")) ∧
    ((m = 3 ∨ m = 4 ∨ m = 5) → get_season (some m) = some ("Spring")) ∧
    ((m = 6 ∨ m = 7 ∨ m = 8) → get_season (some m) = some ("Summer")) ∧
    ((m = 9 ∨ m = 10 ∨ m = 11) → get_season (some m) = some ("Fall")) ∧
    (1 ≤ m → m ≤ 12 →
      get_season (some m) = some ("Winter") ∨ get_season (some m) = some ("Spring") ∨
      get_season (some m) = some ("Summer") ∨ get_season (some m) = some ("Fall")) ∧
    get_season none = none := by
  refine ⟨?_, ?_, ?_, ?_, ?_, rfl⟩
  · rintro (rfl | rfl | rfl) <;> rfl
  · rintro (rfl | rfl | rfl) <;> rfl
  · rintro (rfl | rfl | rfl) <;> rfl
  · rintro (rfl | rfl | rfl) <;> rfl
  · intro h1 h2
    interval_cases m <;> decide

theorem get_season_mapping_witness : get_season (some 7) = some ("Summer") :=
  (get_season_mapping 7).2.2.1 (Or.inr (Or.inl rfl))

/-- C10: a non-missing month outside 1..12 falls through the three explicit
membership tests of `get_season` and lands in the final `return "Fall"`;
only a missing month produces a missing season. -/
theorem get_season_out_of_range (m : Int) (h : m < 1 ∨ 12 < m) :
    get_season (some m) = some ("Fall") := by
  show (if m ∈ [12, 1, 2] then some ("Winter")
    else if m ∈ [3, 4, 5] then some ("Spring")
    else if m ∈ [6, 7, 8] then some ("Summer")
    else some ("Fall")) = some ("Fall")
  rcases h with h | h <;>
    rw [if_neg (by simp; omega), if_neg (by simp; omega), if_neg (by simp; omega)]

theorem get_season_out_of_range_witness :
    get_season (some 0) = some ("Fall") ∧ get_season (some 13) = some ("Fall") :=
  ⟨get_season_out_of_range 0 (Or.inl (by norm_num)),
   get_season_out_of_range 13 (Or.inr (by norm_num))⟩

theorem holidayMatch_iff (w : Int) (refs : List Int) (r : Row) :
    holidayMatch w refs r = true ↔
      ∃ x, r.releaseDate = Cell.date x ∧ ∃ d ∈ refs, |x - d| ≤ w := by
  constructor
  · intro h
    unfold holidayMatch at h
    split at h
    · rename_i x heq
      refine ⟨x, heq, ?_⟩
      simpa using h
    · exact absurd h (by simp)
  · rintro ⟨x, hx, d, hd, hle⟩
    unfold holidayMatch
    rw [hx]
    simp only [List.any_eq_true]
    exact ⟨d, hd, by simpa using hle⟩

/-- C1: the holiday window matcher includes a row exactly when its release
date is an actual date whose absolute day difference from at least one
reference date is at most `window_days`; a row lying exactly on a reference
date is included for any window of at least 0 days, and a row exactly
`window_days + 1` days from every reference date is excluded. -/
theorem holiday_window_characterization (df : Frame) (dates : List String) (w : Int)
    (hD : df.hasDate = true) (hw : 0 ≤ w) :
    (∀ r, r ∈ (holiday_release_analysis df dates w).rows ↔
        r ∈ df.rows ∧ ∃ x, r.releaseDate = Cell.date x ∧
          ∃ d ∈ dates.filterMap parseDateNum, |x - d| ≤ w) ∧
    (∀ r ∈ df.rows, ∀ x, r.releaseDate = Cell.date x →
        x ∈ dates.filterMap parseDateNum →
        r ∈ (holiday_release_analysis df dates w).rows) ∧
    (∀ r ∈ df.rows, ∀ x, r.releaseDate = Cell.date x →
        (∀ d ∈ dates.filterMap parseDateNum, |x - d| = w + 1) →
        r ∉ (holiday_release_analysis df dates w).rows) := by
  have hrows : (holiday_release_analysis df dates w).rows
      = df.rows.filter (holidayMatch w (dates.filterMap parseDateNum)) := by
    unfold holiday_release_analysis
    rw [if_pos hD]
  refine ⟨?_, ?_, ?_⟩
  · intro r
    rw [hrows, List.mem_filter, holidayMatch_iff]
  · intro r hr x hx hmem
    rw [hrows, List.mem_filter]
    exact ⟨hr, (holidayMatch_iff _ _ _).mpr ⟨x, hx, x, hmem, by simpa using hw⟩⟩
  · intro r hr x hx hall hcon
    rw [hrows, List.mem_filter] at hcon
    rcases (holidayMatch_iff _ _ _).mp hcon.2 with ⟨x2, hx2, d, hd, hle⟩
    rw [hx] at hx2
    injection hx2 with hx2
    subst hx2
    rw [hall d hd] at hle
    omega

theorem holiday_window_characterization_witness :
    holidayFrame.hasDate = true ∧ (0 : Int) ≤ 3 ∧
    rowA ∈ (holiday_release_analysis holidayFrame importantDatesDefault 3).rows := by
  refine ⟨rfl, by norm_num, ?_⟩
  have h := holiday_window_characterization holidayFrame importantDatesDefault 3 rfl (by norm_num)
  exact (h.1 rowA).mpr ⟨by decide, daysFromCivil 2023 12 24, rfl,
    daysFromCivil 2023 12 25, by decide, by decide⟩

theorem map_fst_keyed (dom : List Int) (g : Int → ℚ) :
    (dom.map fun k => (k, g k)).map Prod.fst = dom := by
  rw [List.map_map]
  have h : (Prod.fst ∘ fun k : Int => (k, g k)) = id := by
    funext a
    rfl
  rw [h, List.map_id]

theorem mem_map_pair {dom : List Int} {f : Int → ℚ} {k : Int} {v : ℚ}
    (h : (k, v) ∈ dom.map fun a => (a, f a)) : v = f k := by
  rcases List.mem_map.mp h with ⟨a, _, heq⟩
  obtain ⟨h1, h2⟩ := Prod.mk.injEq .. |>.mp heq
  subst h1
  exact h2.symm

/-- C4: the reindexed month aggregation has exactly 12 entries, keyed 1..12
in order; the entry of every month is the (skipna) sum of the viewership of
its rows, so the entry of a month absent from the data is exactly 0. -/
theorem monthly_viewership_reindexed (rs : List Row) :
    (monthlyViewership rs).length = 12 ∧
    (monthlyViewership rs).map Prod.fst = [1, 2, 3, 4, 5, 6, 7, 8, 9, 10, 11, 12] ∧
    ∀ k v, (k, v) ∈ monthlyViewership rs →
      v = groupSumMonth rs k ∧ ((∀ r ∈ rs, ¬ r.releaseMonth = some k) → v = 0) := by
  refine ⟨?_, ?_, ?_⟩
  · unfold monthlyViewership
    rw [List.length_map]
    decide
  · unfold monthlyViewership
    rw [map_fst_keyed]
    decide
  · intro k v hmem
    have hv : v = (if rs.any fun r => r.releaseMonth == some k then groupSumMonth rs k else 0) :=
      mem_map_pair hmem
    by_cases hany : (rs.any fun r => r.releaseMonth == some k) = true
    · rw [hv, if_pos hany]
      refine ⟨rfl, ?_⟩
      intro hnone
      rcases List.any_eq_true.mp hany with ⟨r, hr, hbeq⟩
      exact absurd (by simpa using hbeq) (hnone r hr)
    · have hfil : (rs.filter fun r => r.releaseMonth == some k) = [] := by
        rw [List.filter_eq_nil_iff]
        intro r hr hbeq
        exact hany (List.any_eq_true.mpr ⟨r, hr, hbeq⟩)
      have hzero : groupSumMonth rs k = 0 := by
        unfold groupSumMonth
        rw [hfil]
        simp
      rw [hv, if_neg hany, hzero]
      exact ⟨rfl, fun _ => rfl⟩

theorem monthly_viewership_reindexed_witness :
    ((1 : Int), (0 : ℚ)) ∈ monthlyViewership [rowNa] ∧ (0 : ℚ) = groupSumMonth [rowNa] 1 := by
  have hmem : ((1 : Int), (0 : ℚ)) ∈ monthlyViewership [rowNa] := by decide
  exact ⟨hmem, ((monthly_viewership_reindexed [rowNa]).2.2 1 0 hmem).1⟩

theorem decimalLe_iff (p q : Int × Nat) :
    decimalLe p q = true ↔ (p.1 : ℚ) / 10 ^ p.2 ≤ (q.1 : ℚ) / 10 ^ q.2 := by
  unfold decimalLe
  rw [decide_eq_true_iff,
      div_le_div_iff₀ (show (0 : ℚ) < 10 ^ p.2 by positivity)
        (show (0 : ℚ) < 10 ^ q.2 by positivity)]
  constructor
  · intro h
    exact_mod_cast h
  · intro h
    exact_mod_cast h

theorem hoursQ_key (c : Cell) :
    hoursQ c = ((hoursKey c).1 : ℚ) / 10 ^ (hoursKey c).2 := by
  cases c <;> simp [hoursQ, hoursKey]

theorem hoursDescLe_iff (a b : Row) :
    hoursDescLe a b = true ↔ hoursQ b.hours ≤ hoursQ a.hours := by
  unfold hoursDescLe
  rw [decimalLe_iff, ← hoursQ_key, ← hoursQ_key]

theorem hoursDescRel_trans :
    ∀ (a b c : Row), hoursDescRel a b → hoursDescRel b c → hoursDescRel a c := by
  intro a b c h1 h2
  unfold hoursDescRel at h1 h2 ⊢
  rw [hoursDescLe_iff] at h1 h2 ⊢
  exact le_trans h2 h1

theorem hoursDescRel_total : ∀ (a b : Row), hoursDescRel a b ∨ hoursDescRel b a := by
  intro a b
  unfold hoursDescRel
  rw [hoursDescLe_iff, hoursDescLe_iff]
  exact le_total (hoursQ b.hours) (hoursQ a.hours)

theorem mem_nlargest_isNum (n : Nat) (rs : List Row) :
    ∀ r ∈ nlargestRows n rs, r.hours.isNum = true := by
  intro r hr
  unfold nlargestRows at hr
  have h1 := List.mem_of_mem_take hr
  have h2 := (List.mem_insertionSort hoursDescRel).mp h1
  exact (List.mem_filter.mp h2).2

/-- C5 (amended): Top-N selection returns at most n rows, with fewer than n
only when the table has fewer than n rows carrying a non-missing viewership
value; every returned row outranks (in hours) every eligible row left out;
ties are broken by original order because the sort is stable.  The original
claim's parenthetical "fewer than N only if the table has fewer rows" fails
because rows with missing viewership are dropped by `nlargest`. -/
theorem nlargest_spec (n : Nat) (rs : List Row) :
    (nlargestRows n rs).length = min n ((rs.filter fun r => r.hours.isNum).length) ∧
    (∀ r ∈ nlargestRows n rs, r.hours.isNum = true) ∧
    (∀ r ∈ nlargestRows n rs, ∀ s ∈ rs, s.hours.isNum = true →
      s ∉ nlargestRows n rs → hoursQ s.hours ≤ hoursQ r.hours) := by
  have htot : IsTotal Row hoursDescRel := ⟨hoursDescRel_total⟩
  have htrans : IsTrans Row hoursDescRel := ⟨hoursDescRel_trans⟩
  refine ⟨?_, mem_nlargest_isNum n rs, ?_⟩
  · unfold nlargestRows
    rw [List.length_take, List.length_insertionSort]
  · intro r hr s hs hnum hnot
    unfold nlargestRows at hr hnot
    have hsmem : s ∈ (rs.filter fun r => r.hours.isNum).insertionSort hoursDescRel :=
      (List.mem_insertionSort hoursDescRel).mpr (List.mem_filter.mpr ⟨hs, hnum⟩)
    have hpw := @List.sorted_insertionSort Row hoursDescRel _ htot htrans
      (rs.filter fun r => r.hours.isNum)
    rw [← List.take_append_drop n ((rs.filter fun r => r.hours.isNum).insertionSort hoursDescRel)]
      at hsmem hpw
    rcases List.mem_append.mp hsmem with htake | hdrop
    · exact absurd htake hnot
    · have hcross := (List.pairwise_append.mp hpw).2.2
      have := hcross r hr s hdrop
      unfold hoursDescRel at this
      exact (hoursDescLe_iff r s).mp this

theorem nlargest_spec_witness :
    rowA ∈ nlargestRows 1 [rowB, rowA, rowNa] ∧
    hoursQ rowB.hours ≤ hoursQ rowA.hours := by
  have hmem : rowA ∈ nlargestRows 1 [rowB, rowA, rowNa] := by decide
  refine ⟨hmem, ?_⟩
  exact (nlargest_spec 1 [rowB, rowA, rowNa]).2.2 rowA hmem rowB (by decide) (by decide)
    (by decide)

/-- C5 counterexample: with a single row whose viewership is missing and
n = 1, `nlargest` returns no rows although the table has one row, refuting
"fewer than N only if the table has fewer rows". -/
theorem nlargest_short_counterexample :
    (nlargestRows 1 [rowNa]).length < 1 ∧ ¬ ([rowNa].length < 1) := by
  constructor
  · decide
  · decide

/-- C9: rows whose viewership is missing are never returned by Top-N
selection, and the result can be shorter than n even when the table has at
least n rows. -/
theorem nlargest_excludes_missing (n : Nat) (rs : List Row) :
    (∀ r ∈ nlargestRows n rs, ¬ r.hours = Cell.na) ∧
    (∀ r ∈ rs, r.hours = Cell.na → r ∉ nlargestRows n rs) ∧
    (∃ m rs2, m ≤ List.length rs2 ∧ (nlargestRows m rs2).length < m) := by
  refine ⟨?_, ?_, 1, [rowNa], by decide, by decide⟩
  · intro r hr
    have := mem_nlargest_isNum n rs r hr
    intro hna
    rw [hna] at this
    exact absurd this (by decide)
  · intro r hr hna hmem
    have := mem_nlargest_isNum n rs r hmem
    rw [hna] at this
    exact absurd this (by decide)

theorem nlargest_excludes_missing_witness :
    rowNa ∉ nlargestRows 1 [rowNa] :=
  (nlargest_excludes_missing 1 [rowNa]).2.1 rowNa (List.mem_singleton.mpr rfl) rfl

theorem prepRow_title (r : Row) : (prepRow r).title = r.title := by
  unfold prepRow
  cases hp : parseDateCell r.releaseDate with
  | none => rfl
  | some t =>
    obtain ⟨y, m, d⟩ := t
    rfl

/-- C8: the Column Normalizer and the Date Enricher transform rows in place,
preserving row count and row order (witnessed here by the untouched title
column, which identifies each row's original position); the Holiday Window
Matcher returns a sublist of the input rows - the selected subset in its
original relative order. -/
theorem pipeline_order_preservation (df : Frame) (dates : List String) (w : Int) :
    (∀ df1 k, clean_hours df = Except.ok (df1, k) →
      df1.rows.length = df.rows.length ∧ df1.rows.map Row.title = df.rows.map Row.title) ∧
    (∀ df2 k, prepare_dates df = Except.ok (df2, k) →
      df2.rows.length = df.rows.length ∧ df2.rows.map Row.title = df.rows.map Row.title) ∧
    (holiday_release_analysis df dates w).rows.Sublist df.rows := by
  refine ⟨?_, ?_, ?_⟩
  · intro df1 k h
    unfold clean_hours at h
    by_cases hH : df.hasHours
    · rw [if_pos hH] at h
      simp only [Except.ok.injEq, Prod.mk.injEq] at h
      obtain ⟨hf, _⟩ := h
      subst hf
      refine ⟨List.length_map _ _, ?_⟩
      show (df.rows.map cleanRow).map Row.title = df.rows.map Row.title
      rw [List.map_map]
      exact List.map_congr_left fun r _ => rfl
    · rw [if_neg hH] at h
      exact absurd h (by simp)
  · intro df2 k h
    unfold prepare_dates at h
    by_cases hD : df.hasDate
    · rw [if_pos hD] at h
      simp only [Except.ok.injEq, Prod.mk.injEq] at h
      obtain ⟨hf, _⟩ := h
      subst hf
      refine ⟨List.length_map _ _, ?_⟩
      show (df.rows.map prepRow).map Row.title = df.rows.map Row.title
      rw [List.map_map]
      exact List.map_congr_left fun r _ => prepRow_title r
    · rw [if_neg hD] at h
      exact absurd h (by simp)
  · unfold holiday_release_analysis
    split
    · exact List.filter_sublist _
    · exact List.nil_sublist _

theorem pipeline_order_preservation_witness :
    cleanedScenario.rows.length = scenarioFrame.rows.length ∧
    cleanedScenario.rows.map Row.title = scenarioFrame.rows.map Row.title :=
  (pipeline_order_preservation scenarioFrame importantDatesDefault 3).1 cleanedScenario 1 rfl

/-- C3 counterexample: a run whose load succeeds (the file is present) but
whose table lacks the hours column terminates abnormally - `clean_hours`
raises an uncaught KeyError, which exits the interpreter with a non-zero
status - refuting "non-zero status only when the load step fails". -/
theorem batch_abnormal_counterexample :
    (mainBatch (some frameNoHours) 10).isAbnormal = true ∧ some frameNoHours ≠ none := by
  exact ⟨rfl, by simp⟩

/-- C3 (amended): the batch run terminates abnormally exactly when the load
step fails or a mandatory preprocessing column (Hours Viewed or Release
Date) is missing; after successful preprocessing, every chart and report
step is guarded by a column check and can only skip, so the run
completes. -/
theorem mainBatch_abnormal_iff (file : Option Frame) (n : Nat) :
    (mainBatch file n).isAbnormal = true ↔
      file = none ∨ ∃ df, file = some df ∧ (df.hasHours = false ∨ df.hasDate = false) := by
  cases file with
  | none => simp [mainBatch, RunOutcome.isAbnormal]
  | some df =>
    by_cases hH : df.hasHours
    · by_cases hD : df.hasDate
      · simp [mainBatch, clean_hours, prepare_dates, hH, hD, RunOutcome.isAbnormal]
      · simp only [Bool.not_eq_true] at hD
        simp [mainBatch, clean_hours, prepare_dates, hH, hD, RunOutcome.isAbnormal]
    · simp only [Bool.not_eq_true] at hH
      simp [mainBatch, clean_hours, hH, RunOutcome.isAbnormal]


theorem cleanCell_sanity :
    cleanCell (Cell.str ("1,234")) = Cell.num 1234 0 ∧
    cleanCell (Cell.str (" 500 ")) = Cell.num 500 0 ∧
    cleanCell (Cell.str ("abc")) = Cell.na ∧
    cleanCell (Cell.str ("-12.50")) = Cell.num (-125) 1 ∧
    cleanCell Cell.na = Cell.na := by
  refine ⟨?_, ?_, ?_, ?_, ?_⟩ <;> decide

theorem civil_date_sanity :
    daysFromCivil 1970 1 1 = 0 ∧
    daysFromCivil 2023 12 25 - daysFromCivil 2023 12 24 = 1 ∧
    civilFromDays (daysFromCivil 2023 12 25) = (2023, 12, 25) ∧
    dayName (daysFromCivil 2023 12 25) = "Monday" := by
  refine ⟨?_, ?_, ?_, ?_⟩ <;> decide

end Netflix
